import Mathlib

/-!
Verification of the Webtoon Translator / Editor core against its
natural-language specification.

The definitions below are a shallow embedding of the TypeScript source:

* `src/components/MangaEditor.tsx` — history engine (`addToHistory`,
  `handleUndo`, `handleRedo`), pointer-gesture state machine
  (`handleMouseDown` / `handleMouseMove` / `handleMouseUp`, select tool),
  link tool (`handleBubbleConnect`), chain decomposition
  (`handleRetranslateLinked` / `getChain`), and the font-sizing and text
  layout used by the live preview and by `handleDownload`.
* `src/services/geminiService.ts` — the context-retranslation collaborator,
  modelled through its error contract (a failed chain yields `[]`).

JavaScript numbers are embedded as `ℚ` (the claims under scrutiny are about
the arithmetic structure of the code, not float rounding), `Math.sqrt` is
abstracted as an arbitrary function parameter `sqrtFn : ℚ → ℚ` applied
identically wherever the source calls it, and bubble ids are `String`s as in
the source.
-/

/-- `BoundingBox` from `src/types.ts` (coordinates in the 0–1000 normalized
space). Field order follows the source. -/
structure BoundingBox where
  ymin : ℚ
  xmin : ℚ
  ymax : ℚ
  xmax : ℚ
deriving DecidableEq

/-- `'rectangle' | 'ellipse'` from `src/types.ts`. -/
inductive Shape where
  | rectangle
  | ellipse
deriving DecidableEq

/-- `TextBubble` from `src/types.ts`.  Optional fields that every code path
under scrutiny reads through a default (`shape`, `fontSizeScale`,
`fontFamily`, colors) are kept as plain fields; `originalText` stays
optional as in the source. -/
structure TextBubble where
  id : String
  text : String
  originalText : Option String
  box : BoundingBox
  isManual : Bool
  textColor : String
  backgroundColor : String
  shape : Shape
  fontSizeScale : ℚ
  fontFamily : String
deriving DecidableEq

/-- JavaScript `x || 1` on a number: `0` is falsy and is replaced by `1`.
Used by the source at `(textLength || 1)` and `(b.fontSizeScale || 1)`. -/
def jsOrOne (q : ℚ) : ℚ :=
  if q = 0 then 1 else q

/-! ## History engine

`MangaEditor.tsx` lines 53–55 and 101–124: a list of full snapshots plus a
current index, with the currently displayed `bubbles` mirror. -/

/-- The history-related component state: `history`, `historyIndex`,
`bubbles` (`MangaEditor.tsx` lines 54–58). -/
structure HistState where
  history : List (List TextBubble)
  historyIndex : Nat
  bubbles : List TextBubble
deriving DecidableEq

/-- Initial state: `useState([[]])`, `useState(0)`, `useState([])`. -/
def initialHist : HistState :=
  { history := [[]], historyIndex := 0, bubbles := [] }

/-- `addToHistory` (`MangaEditor.tsx` lines 101–108): truncate beyond the
current index, append the snapshot, advance the index, display it. -/
def addToHistory (s : HistState) (newBubbles : List TextBubble) : HistState :=
  { history := s.history.take (s.historyIndex + 1) ++ [newBubbles]
    historyIndex := s.historyIndex + 1
    bubbles := newBubbles }

/-- `handleUndo` (`MangaEditor.tsx` lines 110–116).  The source indexes
`history[newIndex]`; out-of-range access (never taken in reachable states)
is modelled by `List.getD` with default `[]`. -/
def handleUndo (s : HistState) : HistState :=
  if 0 < s.historyIndex then
    { s with
      historyIndex := s.historyIndex - 1
      bubbles := s.history.getD (s.historyIndex - 1) [] }
  else s

/-- `handleRedo` (`MangaEditor.tsx` lines 118–124). -/
def handleRedo (s : HistState) : HistState :=
  if s.historyIndex < s.history.length - 1 then
    { s with
      historyIndex := s.historyIndex + 1
      bubbles := s.history.getD (s.historyIndex + 1) [] }
  else s

/-- Redo is offered exactly when the index is not at the end
(`disabled={historyIndex === history.length - 1}`, `MangaEditor.tsx` 782). -/
def canRedo (s : HistState) : Prop :=
  s.historyIndex < s.history.length - 1

/-- A sequence of commits. -/
def commitList (s : HistState) (snaps : List (List TextBubble)) : HistState :=
  snaps.foldl addToHistory s

/-- `k` undo operations in a row. -/
def undoN (s : HistState) : Nat → HistState
  | 0 => s
  | k + 1 => undoN (handleUndo s) k

/-- States reachable through the history engine alone (commit / undo / redo
starting from the initial empty history). -/
inductive ReachableHist : HistState → Prop
  | init : ReachableHist initialHist
  | commit {s : HistState} (b : List TextBubble) :
      ReachableHist s → ReachableHist (addToHistory s b)
  | undo {s : HistState} : ReachableHist s → ReachableHist (handleUndo s)
  | redo {s : HistState} : ReachableHist s → ReachableHist (handleRedo s)

/-- The internal invariant of the history engine: the index is in range and
the displayed bubbles are the snapshot at the index. -/
def histInv (s : HistState) : Prop :=
  s.historyIndex < s.history.length ∧
    s.bubbles = s.history.getD s.historyIndex []

/-! ## Pointer-gesture state machine (select tool)

`MangaEditor.tsx` lines 492–642: `handleMouseDown`, `handleMouseMove`,
`handleMouseUp` restricted to the select tool (no panning, drawing or
editing in flight).  The device-to-content affine transform inside
`getRelativeCoords` is abstracted away; what is kept is its clamp of the
normalized position to `[0,1] × [0,1]` (lines 465–472). -/

/-- Resize handles `nw | ne | sw | se`. -/
inductive ResizeHandle where
  | nw
  | ne
  | sw
  | se
deriving DecidableEq

/-- The gesture-relevant component state (`MangaEditor.tsx` lines 54–87). -/
structure EditorState where
  bubbles : List TextBubble
  history : List (List TextBubble)
  historyIndex : Nat
  draggingId : Option String
  dragOffset : Option (ℚ × ℚ)
  isDragging : Bool
  resizingId : Option String
  resizeHandle : Option ResizeHandle
deriving DecidableEq

/-- Clamp to `[0,1]` as in `getRelativeCoords`. -/
def clamp01 (q : ℚ) : ℚ := max 0 (min 1 q)

/-- `getRelativeCoords` (`MangaEditor.tsx` 465–472): normalized pointer
position clamped componentwise to `[0,1]`. -/
def getRelativeCoords (p : ℚ × ℚ) : ℚ × ℚ := (clamp01 p.1, clamp01 p.2)

/-- The hit test of `handleMouseDown` (lines 523–529): topmost bubble
(`[...bubbles].reverse().find`) whose box contains the point. -/
def hitBubble (bubbles : List TextBubble) (c : ℚ × ℚ) : Option TextBubble :=
  bubbles.reverse.find? fun b =>
    let bx := b.box.xmin / 1000
    let by' := b.box.ymin / 1000
    let bw := (b.box.xmax - b.box.xmin) / 1000
    let bh := (b.box.ymax - b.box.ymin) / 1000
    decide (bx ≤ c.1 ∧ c.1 ≤ bx + bw ∧ by' ≤ c.2 ∧ c.2 ≤ by' + bh)

/-- Resizing branch of `handleMouseMove` (lines 567–592): each handle moves
two edges, clamping the moving edge 10 normalized units away from the fixed
opposite edge. -/
def resizeBox (h : ResizeHandle) (c : ℚ × ℚ) (box : BoundingBox) : BoundingBox :=
  let currentX := c.1 * 1000
  let currentY := c.2 * 1000
  match h with
  | .nw => { box with xmin := min currentX (box.xmax - 10), ymin := min currentY (box.ymax - 10) }
  | .ne => { box with xmax := max currentX (box.xmin + 10), ymin := min currentY (box.ymax - 10) }
  | .sw => { box with xmin := min currentX (box.xmax - 10), ymax := max currentY (box.ymin + 10) }
  | .se => { box with xmax := max currentX (box.xmin + 10), ymax := max currentY (box.ymin + 10) }

/-- Dragging branch of `handleMouseMove` (lines 595–615): reposition the
box keeping its width and height. -/
def dragBox (off : ℚ × ℚ) (c : ℚ × ℚ) (box : BoundingBox) : BoundingBox :=
  let width := box.xmax - box.xmin
  let height := box.ymax - box.ymin
  let newXmin := (c.1 - off.1) * 1000
  let newYmin := (c.2 - off.2) * 1000
  { ymin := newYmin, xmin := newXmin, ymax := newYmin + height, xmax := newXmin + width }

/-- Per-bubble update applied by the dragging branch (only the bubble with
the dragged id gets a repositioned box; `{...b, box: ...}` keeps every
other field). -/
def dragUpdate (did : String) (off : ℚ × ℚ) (c : ℚ × ℚ) (b : TextBubble) : TextBubble :=
  if b.id = did then { b with box := dragBox off c b.box } else b

/-- Per-bubble update applied by the resizing branch. -/
def resizeUpdate (rid : String) (h : ResizeHandle) (c : ℚ × ℚ) (b : TextBubble) : TextBubble :=
  if b.id = rid then { b with box := resizeBox h c b.box } else b

/-- Pointer events reaching the select-tool handlers.  `downOnHandle`
stands for a mousedown whose DOM target is a resize handle (carrying
`data-handle` and `data-bubble-id`); `down` for a mousedown on the canvas
at a raw normalized position; `move` and `up` likewise. -/
inductive PointerEvent where
  | downOnHandle (id : String) (h : ResizeHandle)
  | down (px py : ℚ)
  | move (px py : ℚ)
  | up

/-- `handleMouseDown` (lines 492–553), select tool. -/
def handleMouseDown (s : EditorState) : PointerEvent → EditorState
  | .downOnHandle id h =>
      { s with resizingId := some id, resizeHandle := some h, isDragging := false }
  | .down px py =>
      let coords := getRelativeCoords (px, py)
      match hitBubble s.bubbles coords with
      | some b =>
          { s with
            draggingId := some b.id
            dragOffset := some (coords.1 - b.box.xmin / 1000, coords.2 - b.box.ymin / 1000)
            isDragging := false }
      | none => s
  | _ => s

/-- `handleMouseMove` (lines 555–619), select tool: the resizing branch has
priority over the dragging branch and only mutates `bubbles`; the first
drag frame sets `isDragging`. -/
def handleMouseMove (s : EditorState) (px py : ℚ) : EditorState :=
  let coords := getRelativeCoords (px, py)
  match s.resizingId, s.resizeHandle with
  | some rid, some h =>
      { s with bubbles := s.bubbles.map (resizeUpdate rid h coords) }
  | _, _ =>
    match s.draggingId, s.dragOffset with
    | some did, some off =>
        { s with
          isDragging := true
          bubbles := s.bubbles.map (dragUpdate did off coords) }
    | _, _ => s

/-- The commit performed inside `handleMouseUp` — `addToHistory(bubbles)`
on the editor state (lines 628 and 636). -/
def editorCommit (s : EditorState) : EditorState :=
  { s with
    history := s.history.take (s.historyIndex + 1) ++ [s.bubbles]
    historyIndex := s.historyIndex + 1 }

/-- `handleMouseUp` (lines 621–642), select tool: a resize gesture commits
unconditionally; a drag gesture commits iff some move happened
(`isDragging`). -/
def handleMouseUp (s : EditorState) : EditorState :=
  match s.resizingId with
  | some _ => { editorCommit s with resizingId := none, resizeHandle := none }
  | none =>
    match s.draggingId with
    | some _ =>
        let s' := if s.isDragging then editorCommit s else s
        { s' with draggingId := none, dragOffset := none, isDragging := false }
    | none => s

/-- One pointer event. -/
def editorStep (s : EditorState) : PointerEvent → EditorState
  | .move px py => handleMouseMove s px py
  | .up => handleMouseUp s
  | ev => handleMouseDown s ev

/-- A whole event sequence. -/
def editorSteps (s : EditorState) (evs : List PointerEvent) : EditorState :=
  evs.foldl editorStep s

/-- The ordering half of the box invariant: `xmin < xmax ∧ ymin < ymax`. -/
def boxOrdered (box : BoundingBox) : Prop :=
  box.xmin < box.xmax ∧ box.ymin < box.ymax

/-- All four box coordinates within `[0, 1000]`. -/
def boxInRange (box : BoundingBox) : Prop :=
  (0 ≤ box.ymin ∧ box.ymin ≤ 1000) ∧ (0 ≤ box.xmin ∧ box.xmin ≤ 1000) ∧
  (0 ≤ box.ymax ∧ box.ymax ≤ 1000) ∧ (0 ≤ box.xmax ∧ box.xmax ≤ 1000)

instance (box : BoundingBox) : Decidable (boxOrdered box) := by
  unfold boxOrdered
  infer_instance

instance (box : BoundingBox) : Decidable (boxInRange box) := by
  unfold boxInRange
  infer_instance

/-- The dragged bubble keeps its exact size and all non-box fields. -/
def framePreserved (b b' : TextBubble) : Prop :=
  b'.box.xmax - b'.box.xmin = b.box.xmax - b.box.xmin ∧
  b'.box.ymax - b'.box.ymin = b.box.ymax - b.box.ymin ∧
  b'.id = b.id ∧ b'.text = b.text ∧ b'.originalText = b.originalText ∧
  b'.isManual = b.isManual ∧ b'.textColor = b.textColor ∧
  b'.backgroundColor = b.backgroundColor ∧ b'.shape = b.shape ∧
  b'.fontSizeScale = b.fontSizeScale ∧ b'.fontFamily = b.fontFamily

/-- A sample bubble used by concrete scenarios. -/
def sampleBubble : TextBubble :=
  { id := "b"
    text := "Hello"
    originalText := none
    box := { ymin := 0, xmin := 0, ymax := 500, xmax := 500 }
    isManual := true
    textColor := "#000000"
    backgroundColor := "#FFFFFF"
    shape := .rectangle
    fontSizeScale := 1
    fontFamily := "Comic Neue" }

/-- A sample idle editor state holding `sampleBubble`. -/
def sampleEditor : EditorState :=
  { bubbles := [sampleBubble]
    history := [[]]
    historyIndex := 0
    draggingId := none
    dragOffset := none
    isDragging := false
    resizingId := none
    resizeHandle := none }

/-- `sampleEditor` mid-drag, before any pointer move. -/
def sampleDragReady : EditorState :=
  { sampleEditor with draggingId := some "b", dragOffset := some (0, 0) }

/-! ## Link (tree) tool

`MangaEditor.tsx` lines 90–91, 221–254: the `connections` list of directed
id pairs and the `activeTreeNode` selection. -/

/-- The link-tool state (`connections`, `activeTreeNode`). -/
structure LinkState where
  connections : List (String × String)
  activeTreeNode : Option String
deriving DecidableEq

/-- `handleBubbleConnect` (`MangaEditor.tsx` 230–254): first click selects,
clicking the active node again deselects, clicking another bubble adds the
directed link unless a link between the two exists in either direction,
then moves the active node to the clicked bubble. -/
def handleBubbleConnect (s : LinkState) (id : String) : LinkState :=
  match s.activeTreeNode with
  | none => { s with activeTreeNode := some id }
  | some a =>
    if a = id then { s with activeTreeNode := none }
    else
      let already := s.connections.any fun c =>
        decide ((c.1 = a ∧ c.2 = id) ∨ (c.1 = id ∧ c.2 = a))
      { connections := if already then s.connections else s.connections ++ [(a, id)]
        activeTreeNode := some id }

/-- Clicking empty space in tree mode clears the active node
(`MangaEditor.tsx` 545). -/
def clearActiveNode (s : LinkState) : LinkState :=
  { s with activeTreeNode := none }

/-- `handleDeleteBubble`'s link cascade (`MangaEditor.tsx` 225): drop every
connection touching the deleted id. -/
def deleteBubbleLinks (s : LinkState) (id : String) : LinkState :=
  { s with connections := s.connections.filter fun c => decide (c.1 ≠ id ∧ c.2 ≠ id) }

/-- Link states reachable through the link tool from the empty state. -/
inductive LinkReachable : LinkState → Prop
  | init : LinkReachable ⟨[], none⟩
  | connect {s : LinkState} (id : String) :
      LinkReachable s → LinkReachable (handleBubbleConnect s id)
  | clear {s : LinkState} : LinkReachable s → LinkReachable (clearActiveNode s)
  | delete {s : LinkState} (id : String) :
      LinkReachable s → LinkReachable (deleteBubbleLinks s id)

/-- Two directed links relate the same unordered pair of bubbles. -/
def sameUnorderedPair (c d : String × String) : Prop :=
  (c.1 = d.1 ∧ c.2 = d.2) ∨ (c.1 = d.2 ∧ c.2 = d.1)

/-- The link-set invariant of the claim: no self-loops, and at most one
link between any unordered pair regardless of direction. -/
def goodLinks (l : List (String × String)) : Prop :=
  (∀ c ∈ l, c.1 ≠ c.2) ∧ l.Pairwise fun c d => ¬ sameUnorderedPair c d

instance (l : List (String × String)) : Decidable (goodLinks l) := by
  unfold goodLinks sameUnorderedPair
  infer_instance

/-! ## Chain decomposition

`handleRetranslateLinked` (`MangaEditor.tsx` 256–320): adjacency list in
edge insertion order, node set in `Set` insertion order, in-degree-0 chain
starts, then the `getChain` walk.  The JS `while` loop is embedded with a
fuel parameter; `walkAux_fuel_stable` proves the result is independent of
the fuel once it covers the unvisited nodes — exactly the claim that the
walk terminates instead of looping forever. -/

/-- Insertion into a JS `Set` modelled on lists: append if absent. -/
def insertOnce (acc : List String) (x : String) : List String :=
  if x ∈ acc then acc else acc ++ [x]

/-- Adjacency list (`adj[from].push(to)` in connection order, lines
263–270). -/
def adjOf (conns : List (String × String)) (n : String) : List String :=
  (conns.filter fun c => decide (c.1 = n)).map Prod.snd

/-- All nodes involved in connections, in `Set` insertion order (lines
273–274). -/
def nodesOf (conns : List (String × String)) : List String :=
  conns.foldl (fun acc c => insertOnce (insertOnce acc c.1) c.2) []

/-- In-degree per node (lines 278–280). -/
def inDegree (conns : List (String × String)) (n : String) : Nat :=
  (conns.filter fun c => decide (c.2 = n)).length

/-- The `while` loop of `getChain` (lines 293–304): repeatedly take the
first outgoing neighbor not yet visited; stop when none remains.  Returns
the nodes pushed after the start and the final visited set. -/
def walkAux (adj : String → List String) : Nat → List String → String → List String × List String
  | 0, visited, _ => ([], visited)
  | fuel + 1, visited, curr =>
    match (adj curr).find? (fun n => decide (n ∉ visited)) with
    | none => ([], visited)
    | some next =>
      let r := walkAux adj fuel (visited ++ [next]) next
      (next :: r.1, r.2)

/-- `getChain` (lines 290–306): mark the start visited, then walk. -/
def getChain (adj : String → List String) (fuel : Nat) (visited : List String)
    (start : String) : List String × List String :=
  let r := walkAux adj fuel (visited ++ [start]) start
  (start :: r.1, r.2)

/-- One iteration of the two chain-collecting loops (lines 308–319):
skip visited nodes, otherwise push the chain from this start. -/
def chainStep (adj : String → List String) (fuel : Nat)
    (acc : List String × List (List String)) (n : String) :
    List String × List (List String) :=
  if n ∈ acc.1 then acc
  else
    let r := getChain adj fuel acc.1 n
    (r.2, acc.2 ++ [r.1])

/-- The whole decomposition pass with explicit fuel: in-degree-0 starts in
discovery order first, then any still-unvisited nodes (cycle leftovers). -/
def buildChainsFuel (fuel : Nat) (conns : List (String × String)) :
    List (List String) :=
  let adj := adjOf conns
  let ns := nodesOf conns
  let starts := ns.filter fun n => decide (inDegree conns n = 0)
  let acc1 := starts.foldl (chainStep adj fuel) ([], [])
  (ns.foldl (chainStep adj fuel) acc1).2

/-- The decomposition as the source runs it: the walk can visit at most
every node, so `(nodesOf conns).length` fuel is the loop's true value. -/
def buildChains (conns : List (String × String)) : List (List String) :=
  buildChainsFuel (nodesOf conns).length conns

/-! ## Context-retranslation pass

`handleRetranslateLinked` (`MangaEditor.tsx` 256–352) applied to
`retranslateContextAware` (`src/services/geminiService.ts` 173–236).  The
collaborator is an oracle indexed by chain position; `retranslateContextAware`
catches every internal failure and returns `[]` (geminiService.ts 232–235),
so a chain whose retranslation failed is exactly a chain whose oracle
response is `[]`. -/

/-- The per-response update (`MangaEditor.tsx` 335–340):
`findIndex` + in-place replacement updates the first bubble with the
response's id, keeping every other field. -/
def setFirstText (bs : List TextBubble) (id text : String) : List TextBubble :=
  match bs with
  | [] => []
  | b :: rest =>
    if b.id = id then { b with text := text } :: rest
    else b :: setFirstText rest id text

/-- Apply one chain's collaborator response in response order. -/
def applyChainResult (bs : List TextBubble) (res : List (String × String)) :
    List TextBubble :=
  res.foldl (fun acc t => setFirstText acc t.1 t.2) bs

/-- The `for` loop over chains (lines 324–341): chains shorter than two
are skipped, each other chain's response is applied to the accumulator. -/
def runChainsAux (oracle : Nat → List (String × String)) :
    List (List String) → Nat → List TextBubble → List TextBubble
  | [], _, bs => bs
  | c :: rest, pos, bs =>
    runChainsAux oracle rest (pos + 1)
      (if c.length < 2 then bs else applyChainResult bs (oracle pos))

/-- All chains of one pass applied to the bubble list. -/
def runChains (bs : List TextBubble) (chains : List (List String))
    (oracle : Nat → List (String × String)) : List TextBubble :=
  runChainsAux oracle chains 0 bs

/-- The same pass with the chain at position `skip` left out entirely. -/
def runChainsExceptAux (oracle : Nat → List (String × String)) (skip : Nat) :
    List (List String) → Nat → List TextBubble → List TextBubble
  | [], _, bs => bs
  | c :: rest, pos, bs =>
    runChainsExceptAux oracle skip rest (pos + 1)
      (if pos = skip ∨ c.length < 2 then bs
       else applyChainResult bs (oracle pos))

/-- `runChains` with position `skip` dropped. -/
def runChainsExcept (bs : List TextBubble) (chains : List (List String))
    (oracle : Nat → List (String × String)) (skip : Nat) : List TextBubble :=
  runChainsExceptAux oracle skip chains 0 bs

/-- `handleRetranslateLinked` (lines 256–352) on the history-related state:
guard on an empty link set, decompose into chains, run every chain, then a
single `addToHistory` for the whole batch. -/
def handleRetranslateLinked (s : HistState) (conns : List (String × String))
    (oracle : Nat → List (String × String)) : HistState :=
  if conns = [] then s
  else addToHistory s (runChains s.bubbles (buildChains conns) oracle)

/-! ## Font sizing and text layout

`calculateBaseFontSize` (`MangaEditor.tsx` 42–50), its two call sites —
the exporter (`handleDownload`, lines 399–437) and the live bubble render
(lines 993–998, 1178) — and the exporter's greedy word wrap.  `Math.sqrt`
and canvas `measureText` are abstracted as function parameters applied
exactly where the source calls them. -/

/-- `calculateBaseFontSize` (lines 42–50): per-character area, square
root, 0.6 multiplier, clamped to [10, 50] normalized units;
`(textLength || 1)` guards the division. -/
def calculateBaseFontSize (sqrtFn : ℚ → ℚ) (textLength : Nat)
    (boxWidth boxHeight : ℚ) : ℚ :=
  let area := boxWidth * boxHeight
  let charArea := area / (if textLength = 0 then 1 else (textLength : ℚ))
  let size := sqrtFn charArea
  min (max (size * (6 / 10)) 10) 50

/-- Modelled from the spec (§4.5 wording, for comparison with the source):
`area = W*H`, `perCharArea = area / max(N,1)`,
`baseSize = sqrt(perCharArea) * 0.6`, clamped to [10, 50]. -/
def specBaseFontSize (sqrtFn : ℚ → ℚ) (n : Nat) (w h : ℚ) : ℚ :=
  min (max (sqrtFn ((w * h) / ((max n 1 : Nat) : ℚ)) * (6 / 10)) 10) 50

/-- Exporter font size (`handleDownload`, lines 399–402):
`base × (naturalWidth / 1000) × (fontSizeScale || 1)`. -/
def exportScaledFontSize (sqrtFn : ℚ → ℚ) (b : TextBubble)
    (naturalWidth : ℚ) : ℚ :=
  let normalizedW := b.box.xmax - b.box.xmin
  let normalizedH := b.box.ymax - b.box.ymin
  let baseFontSizeUnits :=
    calculateBaseFontSize sqrtFn b.text.length normalizedW normalizedH
  let scaleFactor := naturalWidth / 1000
  baseFontSizeUnits * scaleFactor * jsOrOne b.fontSizeScale

/-- Live-preview font size (bubble render, lines 993–998): the same
arithmetic, reading `naturalWidth` from the displayed image. -/
def previewFontSizePx (sqrtFn : ℚ → ℚ) (b : TextBubble)
    (naturalWidth : ℚ) : ℚ :=
  let normalizedW := b.box.xmax - b.box.xmin
  let normalizedH := b.box.ymax - b.box.ymin
  let scaleFactor := naturalWidth / 1000
  let baseFontSizeUnits :=
    calculateBaseFontSize sqrtFn b.text.length normalizedW normalizedH
  baseFontSizeUnits * scaleFactor * jsOrOne b.fontSizeScale

/-- Modelled from the spec (§4.5): final pixel size
`baseSize × (targetPixelWidth / 1000) × fontSizeScale`, with the scale
applied directly. -/
def specScaledFontSize (sqrtFn : ℚ → ℚ) (b : TextBubble)
    (targetPixelWidth : ℚ) : ℚ :=
  specBaseFontSize sqrtFn b.text.length (b.box.xmax - b.box.xmin)
      (b.box.ymax - b.box.ymin) *
    (targetPixelWidth / 1000) * b.fontSizeScale

/-- Exporter wrap width (`handleDownload` 408–411): pixel box width minus
4% (rectangle) or 12% (ellipse) padding per side, clamped below at 10
pixels. -/
def exportMaxWidth (b : TextBubble) (naturalWidth : ℚ) : ℚ :=
  let w := (b.box.xmax - b.box.xmin) / 1000 * naturalWidth
  let paddingPercent : ℚ := if b.shape = Shape.ellipse then 12 / 100 else 4 / 100
  let paddingX := w * paddingPercent * 2
  max (w - paddingX) 10

/-- Preview text content width: the bubble div spans the box's percentage
of the rendered image (lines 988–991, 1024–1028) and the text block carries
CSS padding `12%` (ellipse) or `4%` (rectangle) per side (line 1178),
resolved against the width under border-box sizing. -/
def previewContentWidth (b : TextBubble) (renderedWidth : ℚ) : ℚ :=
  let w := (b.box.xmax - b.box.xmin) / 1000 * renderedWidth
  let paddingPercent : ℚ := if b.shape = Shape.ellipse then 12 / 100 else 4 / 100
  w - 2 * (paddingPercent * w)

/-- The exporter's greedy wrap loop (`handleDownload` 413–428): accumulate
words into `line`, breaking when the measured test line overflows and at
least one word was consumed; the final partial line is flushed. -/
def wrapAux (measure : String → ℚ) (maxWidth : ℚ) :
    List String → Nat → String → List String
  | [], _, line => [line]
  | w :: rest, n, line =>
    let testLine := line ++ w ++ " "
    if measure testLine > maxWidth ∧ 0 < n then
      line :: wrapAux measure maxWidth rest (n + 1) (w ++ " ")
    else
      wrapAux measure maxWidth rest (n + 1) testLine

/-- `text.split(' ')` followed by the wrap loop. -/
def wrapLines (measure : String → ℚ) (text : String) (maxWidth : ℚ) :
    List String :=
  wrapAux measure maxWidth (text.splitOn " ") 0 ""

/-- A minimum-size bubble (10 × 10 normalized units). -/
def tinyBubble : TextBubble :=
  { sampleBubble with box := { ymin := 0, xmin := 0, ymax := 10, xmax := 10 } }

/-! ### History lemmas -/

theorem commitList_tip {s : HistState} :
    ∀ snaps : List (List TextBubble),
      s.historyIndex + 1 = s.history.length →
      (commitList s snaps).historyIndex = s.historyIndex + snaps.length ∧
      (commitList s snaps).history.length = s.history.length + snaps.length := by
  intro snaps
  induction snaps generalizing s with
  | nil =>
    intro _
    simp [commitList]
  | cons snap rest ih =>
    intro h
    have hidx : (addToHistory s snap).historyIndex = s.historyIndex + 1 := rfl
    have hlen : (addToHistory s snap).history.length = s.history.length + 1 := by
      simp [addToHistory, List.length_take]
      omega
    have htip : (addToHistory s snap).historyIndex + 1 = (addToHistory s snap).history.length := by
      rw [hidx, hlen]; omega
    have hrest := ih (s := addToHistory s snap) htip
    have hfold : commitList s (snap :: rest) = commitList (addToHistory s snap) rest := rfl
    rw [hfold]
    constructor
    · rw [hrest.1, hidx, List.length_cons]; omega
    · rw [hrest.2, hlen, List.length_cons]; omega

theorem undoN_history (s : HistState) : ∀ k,
    (undoN s k).history = s.history ∧
    (undoN s k).historyIndex = s.historyIndex - k := by
  intro k
  induction k generalizing s with
  | zero => simp [undoN]
  | succ k ih =>
    have h := ih (handleUndo s)
    have hh : (handleUndo s).history = s.history := by
      unfold handleUndo; split <;> rfl
    have hi : (handleUndo s).historyIndex = s.historyIndex - 1 := by
      unfold handleUndo
      split
      · rfl
      · omega
    refine ⟨by rw [show undoN s (k+1) = undoN (handleUndo s) k from rfl, h.1, hh], ?_⟩
    rw [show undoN s (k+1) = undoN (handleUndo s) k from rfl, h.2, hi]
    omega

theorem reachable_histInv {s : HistState} (h : ReachableHist s) : histInv s := by
  induction h with
  | init => exact ⟨by simp [initialHist], by simp [initialHist]⟩
  | commit b _ ih =>
    rename_i s' _
    obtain ⟨hlt, _⟩ := ih
    have htake : (s'.history.take (s'.historyIndex + 1)).length = s'.historyIndex + 1 := by
      rw [List.length_take]
      omega
    refine ⟨?_, ?_⟩
    · simp only [addToHistory, List.length_append, htake, List.length_cons,
        List.length_nil]
      omega
    · simp only [addToHistory]
      rw [List.getD_eq_getElem?_getD, List.getElem?_append_right (by omega)]
      simp [htake]
  | undo _ ih =>
    rename_i s' _
    obtain ⟨hlt, hb⟩ := ih
    unfold handleUndo
    split
    · exact ⟨by simp only []; omega, by simp⟩
    · exact ⟨hlt, hb⟩
  | redo _ ih =>
    rename_i s' _
    obtain ⟨hlt, hb⟩ := ih
    unfold handleRedo
    split
    · rename_i hcond
      exact ⟨by simp only []; omega, by simp⟩
    · exact ⟨hlt, hb⟩

/-- C2: after N commits and k ≤ N undos, one new commit truncates the
forward branch beyond the current index, appends the new snapshot, advances
the index, and leaves redo unavailable: the index sits at the end of the
history, the redo button is disabled, and `handleRedo` is a no-op. -/
theorem commit_discards_redo_branch
    (snaps : List (List TextBubble)) (k : Nat) (newSnap : List TextBubble)
    (hk : k ≤ snaps.length) :
    addToHistory (undoN (commitList initialHist snaps) k) newSnap =
      { history := (undoN (commitList initialHist snaps) k).history.take
            ((undoN (commitList initialHist snaps) k).historyIndex + 1) ++ [newSnap]
        historyIndex := (undoN (commitList initialHist snaps) k).historyIndex + 1
        bubbles := newSnap } ∧
    ¬ canRedo (addToHistory (undoN (commitList initialHist snaps) k) newSnap) ∧
    handleRedo (addToHistory (undoN (commitList initialHist snaps) k) newSnap) =
      addToHistory (undoN (commitList initialHist snaps) k) newSnap := by
  have h1 := commitList_tip (s := initialHist) snaps (by simp [initialHist])
  have h2 := undoN_history (commitList initialHist snaps) k
  set s2 := undoN (commitList initialHist snaps) k with hs2
  have hidx2 : s2.historyIndex = snaps.length - k := by
    rw [hs2, h2.2, h1.1]
    simp [initialHist]
  have hlen2 : s2.history.length = snaps.length + 1 := by
    rw [hs2, h2.1, h1.2]
    simp [initialHist]
    omega
  set s3 := addToHistory s2 newSnap with hs3
  have hi : s3.historyIndex = s2.historyIndex + 1 := rfl
  have hlen3 : s3.history.length = s2.historyIndex + 2 := by
    rw [hs3]
    simp only [addToHistory, List.length_append, List.length_take,
      List.length_cons, List.length_nil]
    omega
  have hnot : ¬ (s3.historyIndex < s3.history.length - 1) := by
    rw [hi, hlen3]
    omega
  refine ⟨rfl, ?_, ?_⟩
  · intro hc
    exact hnot hc
  · unfold handleRedo
    rw [if_neg hnot]

/-- Witness for C2 at N = 2 commits, k = 1 undo, then one commit. -/
theorem commit_discards_redo_branch_witness :
    1 ≤ [([] : List TextBubble), []].length ∧
    ¬ canRedo (addToHistory (undoN (commitList initialHist [[], []]) 1) []) :=
  ⟨by decide, (commit_discards_redo_branch [[], []] 1 [] (by decide)).2.1⟩

/-- C3: on every state reachable through the history engine with index > 0,
undo immediately followed by redo restores exactly the prior state —
the same snapshot list, index, and displayed bubble collection. -/
theorem undo_redo_roundtrip {s : HistState} (h : ReachableHist s)
    (hpos : 0 < s.historyIndex) :
    handleRedo (handleUndo s) = s := by
  obtain ⟨hlt, hb⟩ := reachable_histInv h
  rcases s with ⟨hist, i, b⟩
  simp only at hlt hb hpos
  have hi : i - 1 + 1 = i := by omega
  unfold handleUndo
  rw [if_pos hpos]
  unfold handleRedo
  rw [if_pos (by show i - 1 < hist.length - 1; omega)]
  simp only [HistState.mk.injEq, hi]
  exact ⟨trivial, trivial, hb.symm⟩

/-- Witness for C3: the state after one commit (index 1) round-trips. -/
theorem undo_redo_roundtrip_witness :
    0 < (addToHistory initialHist []).historyIndex ∧
    handleRedo (handleUndo (addToHistory initialHist [])) =
      addToHistory initialHist [] :=
  ⟨by decide,
   undo_redo_roundtrip (ReachableHist.commit [] ReachableHist.init) (by decide)⟩

/-! ### Gesture lemmas -/

theorem resizeBox_ordered (h : ResizeHandle) (c : ℚ × ℚ) (box : BoundingBox)
    (hb : boxOrdered box) : boxOrdered (resizeBox h c box) := by
  obtain ⟨hx, hy⟩ := hb
  have hminx : min (c.1 * 1000) (box.xmax - 10) < box.xmax :=
    lt_of_le_of_lt (min_le_right _ _) (by linarith)
  have hminy : min (c.2 * 1000) (box.ymax - 10) < box.ymax :=
    lt_of_le_of_lt (min_le_right _ _) (by linarith)
  have hmaxx : box.xmin < max (c.1 * 1000) (box.xmin + 10) :=
    lt_of_lt_of_le (by linarith) (le_max_right _ _)
  have hmaxy : box.ymin < max (c.2 * 1000) (box.ymin + 10) :=
    lt_of_lt_of_le (by linarith) (le_max_right _ _)
  cases h with
  | nw => exact ⟨hminx, hminy⟩
  | ne => exact ⟨hmaxx, hminy⟩
  | sw => exact ⟨hminx, hmaxy⟩
  | se => exact ⟨hmaxx, hmaxy⟩

theorem dragBox_ordered (off c : ℚ × ℚ) (box : BoundingBox)
    (hb : boxOrdered box) : boxOrdered (dragBox off c box) := by
  obtain ⟨hx, hy⟩ := hb
  constructor
  · show (c.1 - off.1) * 1000 < (c.1 - off.1) * 1000 + (box.xmax - box.xmin)
    linarith
  · show (c.2 - off.2) * 1000 < (c.2 - off.2) * 1000 + (box.ymax - box.ymin)
    linarith

theorem editorStep_ordered (s : EditorState) (ev : PointerEvent)
    (h : ∀ b ∈ s.bubbles, boxOrdered b.box) :
    ∀ b ∈ (editorStep s ev).bubbles, boxOrdered b.box := by
  cases ev with
  | downOnHandle id hdl => exact h
  | down px py =>
    simp only [editorStep, handleMouseDown]
    split <;> exact h
  | move px py =>
    simp only [editorStep, handleMouseMove]
    split
    · intro b hb
      rw [List.mem_map] at hb
      obtain ⟨a, ha, rfl⟩ := hb
      unfold resizeUpdate
      split
      · exact resizeBox_ordered _ _ _ (h a ha)
      · exact h a ha
    · split
      · intro b hb
        rw [List.mem_map] at hb
        obtain ⟨a, ha, rfl⟩ := hb
        unfold dragUpdate
        split
        · exact dragBox_ordered _ _ _ (h a ha)
        · exact h a ha
      · exact h
  | up =>
    simp only [editorStep, handleMouseUp]
    split
    · exact h
    · split
      · simp only []
        split <;> exact h
      · exact h

/-- C1 (amended): for every sequence of pointer events (resize and drag
moves included) starting from bubbles whose boxes satisfy
`xmin < xmax ∧ ymin < ymax`, that ordering invariant is preserved.  The
range half of the original claim — all four coordinates staying in
`[0, 1000]` — is refuted by `drag_escapes_range_cex` below: the dragging
branch never clamps the repositioned box. -/
theorem gesture_sequence_preserves_box_order (s : EditorState)
    (evs : List PointerEvent) (h : ∀ b ∈ s.bubbles, boxOrdered b.box) :
    ∀ b ∈ (editorSteps s evs).bubbles, boxOrdered b.box := by
  induction evs generalizing s with
  | nil => exact h
  | cons ev rest ih => exact ih (editorStep s ev) (editorStep_ordered s ev h)

theorem sample_ordered : ∀ b ∈ sampleEditor.bubbles, boxOrdered b.box := by
  intro b hb
  simp only [sampleEditor, List.mem_singleton] at hb
  subst hb
  norm_num [boxOrdered, sampleBubble]

theorem hitBubble_sample_origin :
    hitBubble [sampleBubble] (getRelativeCoords (0, 0)) = some sampleBubble := by
  unfold hitBubble getRelativeCoords clamp01
  rw [List.reverse_singleton, List.find?_cons_of_pos]
  simp only [decide_eq_true_eq, sampleBubble]
  norm_num

theorem sample_down_origin :
    editorStep sampleEditor (.down 0 0) =
      { sampleEditor with
        draggingId := some "b"
        dragOffset := some ((getRelativeCoords (0, 0)).1 - sampleBubble.box.xmin / 1000,
                            (getRelativeCoords (0, 0)).2 - sampleBubble.box.ymin / 1000)
        isDragging := false } := by
  show handleMouseDown sampleEditor (.down 0 0) = _
  simp only [handleMouseDown]
  rw [show sampleEditor.bubbles = [sampleBubble] from rfl, hitBubble_sample_origin]
  rfl

/-- Witness for C1 (amended) on a concrete drag gesture. -/
theorem gesture_sequence_preserves_box_order_witness :
    (∀ b ∈ sampleEditor.bubbles, boxOrdered b.box) ∧
    ∀ b ∈ (editorSteps sampleEditor
        [.down 0 0, .move (1/2) (1/2), .up]).bubbles, boxOrdered b.box :=
  ⟨sample_ordered,
   gesture_sequence_preserves_box_order sampleEditor
     [.down 0 0, .move (1/2) (1/2), .up] sample_ordered⟩

/-- Counterexample to C1 as stated: starting from a bubble whose box meets
the full invariant (ordered and inside `[0,1000]`), a mousedown on the
bubble at the origin followed by one pointer move to the bottom-right
corner drags the box to `(1000,1000)–(1500,1500)`, outside `[0,1000]`. -/
theorem drag_escapes_range_cex :
    (∀ b ∈ sampleEditor.bubbles, boxOrdered b.box ∧ boxInRange b.box) ∧
    ¬ (∀ b ∈ (editorSteps sampleEditor [.down 0 0, .move 1 1]).bubbles,
        boxInRange b.box) := by
  constructor
  · intro b hb
    simp only [sampleEditor, List.mem_singleton] at hb
    subst hb
    constructor
    · norm_num [boxOrdered, sampleBubble]
    · norm_num [boxInRange, sampleBubble]
  · have hfinal : (editorSteps sampleEditor [.down 0 0, .move 1 1]).bubbles =
        [{ sampleBubble with
            box := { ymin := 1000, xmin := 1000, ymax := 1500, xmax := 1500 } }] := by
      show (editorStep (editorStep sampleEditor (.down 0 0)) (.move 1 1)).bubbles = _
      rw [sample_down_origin]
      show [sampleBubble].map
          (dragUpdate "b"
            ((getRelativeCoords (0, 0)).1 - sampleBubble.box.xmin / 1000,
             (getRelativeCoords (0, 0)).2 - sampleBubble.box.ymin / 1000)
            (getRelativeCoords (1, 1))) = _
      simp only [List.map_cons, List.map_nil, dragUpdate, dragBox,
        getRelativeCoords, clamp01, sampleBubble, if_pos]
      norm_num
    intro hall
    rw [hfinal] at hall
    have h := hall _ (List.mem_singleton_self _)
    have hx := h.2.2.2.2
    norm_num [sampleBubble] at hx

/-- C6 (amended): intermediate pointer-move frames never commit; pointer-up
after a resize gesture always commits, whether or not the box changed;
pointer-up after a drag commits exactly when at least one pointer move
happened during the gesture (`isDragging`), regardless of whether the final
box differs from the initial one. -/
theorem gesture_commit_semantics :
    (∀ (s : EditorState) (px py : ℚ),
        (editorStep s (.move px py)).history = s.history ∧
        (editorStep s (.move px py)).historyIndex = s.historyIndex) ∧
    (∀ (s : EditorState) (rid : String), s.resizingId = some rid →
        (editorStep s .up).history =
          s.history.take (s.historyIndex + 1) ++ [s.bubbles] ∧
        (editorStep s .up).historyIndex = s.historyIndex + 1) ∧
    (∀ (s : EditorState) (did : String),
        s.resizingId = none → s.draggingId = some did → s.isDragging = false →
        (editorStep s .up).history = s.history ∧
        (editorStep s .up).historyIndex = s.historyIndex) ∧
    (∀ (s : EditorState) (did : String),
        s.resizingId = none → s.draggingId = some did → s.isDragging = true →
        (editorStep s .up).history =
          s.history.take (s.historyIndex + 1) ++ [s.bubbles] ∧
        (editorStep s .up).historyIndex = s.historyIndex + 1) := by
  refine ⟨?_, ?_, ?_, ?_⟩
  · intro s px py
    simp only [editorStep, handleMouseMove]
    split
    · exact ⟨rfl, rfl⟩
    · split <;> exact ⟨rfl, rfl⟩
  · intro s rid hr
    simp only [editorStep, handleMouseUp, hr]
    exact ⟨rfl, rfl⟩
  · intro s did hr hd hnot
    simp only [editorStep, handleMouseUp, hr, hd, hnot]
    exact ⟨rfl, rfl⟩
  · intro s did hr hd hdr
    simp only [editorStep, handleMouseUp, hr, hd, hdr]
    exact ⟨rfl, rfl⟩

/-- Witness for C6 (amended): a drag gesture with no pointer move commits
nothing on pointer-up. -/
theorem gesture_commit_semantics_witness :
    (editorStep sampleDragReady .up).history = sampleDragReady.history ∧
    (editorStep sampleDragReady .up).historyIndex = sampleDragReady.historyIndex :=
  gesture_commit_semantics.2.2.1 sampleDragReady "b" rfl rfl rfl

/-- Counterexample to C6 as stated: a resize gesture consisting of a
mousedown on a handle immediately followed by mouseup leaves every bubble's
box identical to its state at gesture start, yet `handleMouseUp` pushes a
history entry (the claim says an unchanged box must produce none). -/
theorem resize_up_commits_unchanged_cex :
    (editorSteps sampleEditor [.downOnHandle "b" .nw, .up]).bubbles =
      sampleEditor.bubbles ∧
    (editorSteps sampleEditor [.downOnHandle "b" .nw, .up]).history.length =
      sampleEditor.history.length + 1 :=
  ⟨rfl, rfl⟩

/-- C10: a pointer-move frame during a drag maps each bubble through
`dragUpdate`; bubbles other than the dragged one are untouched, the
dragged bubble keeps its exact width, height, and every non-box field,
and the frame commits nothing. -/
theorem drag_move_frame (s : EditorState) (did : String) (off : ℚ × ℚ)
    (px py : ℚ) (hr : s.resizingId = none) (hd : s.draggingId = some did)
    (ho : s.dragOffset = some off) :
    (editorStep s (.move px py)).bubbles =
      s.bubbles.map (dragUpdate did off (getRelativeCoords (px, py))) ∧
    (∀ b : TextBubble, b.id ≠ did →
        dragUpdate did off (getRelativeCoords (px, py)) b = b) ∧
    (∀ b : TextBubble,
        framePreserved b (dragUpdate did off (getRelativeCoords (px, py)) b)) ∧
    (editorStep s (.move px py)).history = s.history ∧
    (editorStep s (.move px py)).historyIndex = s.historyIndex := by
  refine ⟨?_, ?_, ?_, ?_, ?_⟩
  · simp only [editorStep, handleMouseMove, hr, hd, ho]
  · intro b hb
    simp only [dragUpdate, if_neg hb]
  · intro b
    unfold framePreserved dragUpdate
    split
    · refine ⟨?_, ?_, rfl, rfl, rfl, rfl, rfl, rfl, rfl, rfl, rfl⟩
      · show (dragBox off (getRelativeCoords (px, py)) b.box).xmax -
            (dragBox off (getRelativeCoords (px, py)) b.box).xmin =
            b.box.xmax - b.box.xmin
        simp only [dragBox]
        ring
      · show (dragBox off (getRelativeCoords (px, py)) b.box).ymax -
            (dragBox off (getRelativeCoords (px, py)) b.box).ymin =
            b.box.ymax - b.box.ymin
        simp only [dragBox]
        ring
    · exact ⟨rfl, rfl, rfl, rfl, rfl, rfl, rfl, rfl, rfl, rfl, rfl⟩
  · simp only [editorStep, handleMouseMove, hr, hd, ho]
  · simp only [editorStep, handleMouseMove, hr, hd, ho]

/-- Witness for C10 at a concrete mid-drag state and move event. -/
theorem drag_move_frame_witness :
    (editorStep sampleDragReady (.move (1/4) (1/4))).bubbles =
      sampleDragReady.bubbles.map
        (dragUpdate "b" (0, 0) (getRelativeCoords (1/4, 1/4))) :=
  (drag_move_frame sampleDragReady "b" (0, 0) (1/4) (1/4) rfl rfl rfl).1

/-! ### Link-tool lemmas -/

theorem linkReachable_goodLinks {s : LinkState} (h : LinkReachable s) :
    goodLinks s.connections := by
  induction h with
  | init => exact ⟨by simp, List.Pairwise.nil⟩
  | connect id _ ih =>
    rename_i s' _
    cases ha : s'.activeTreeNode with
    | none =>
      simp only [handleBubbleConnect, ha]
      exact ih
    | some a =>
      by_cases hid : a = id
      · simp only [handleBubbleConnect, ha, if_pos hid]
        exact ih
      · simp only [handleBubbleConnect, ha, if_neg hid]
        by_cases hex : (s'.connections.any fun c =>
            decide ((c.1 = a ∧ c.2 = id) ∨ (c.1 = id ∧ c.2 = a))) = true
        · simp only [hex, if_true]
          exact ih
        · have hfalse : (s'.connections.any fun c =>
              decide ((c.1 = a ∧ c.2 = id) ∨ (c.1 = id ∧ c.2 = a))) = false := by
            revert hex
            cases s'.connections.any fun c =>
                decide ((c.1 = a ∧ c.2 = id) ∨ (c.1 = id ∧ c.2 = a)) <;> simp
          have hpt : ∀ x ∈ s'.connections,
              ¬ ((x.1 = a ∧ x.2 = id) ∨ (x.1 = id ∧ x.2 = a)) := by
            intro x hx hcon
            exact hex (List.any_eq_true.mpr ⟨x, hx, decide_eq_true hcon⟩)
          rw [hfalse, if_neg (by simp : ¬(false = true))]
          obtain ⟨h1, h2⟩ := ih
          refine ⟨?_, ?_⟩
          · intro c hc
            rcases List.mem_append.mp hc with hold | hnew
            · exact h1 c hold
            · rcases List.mem_singleton.mp hnew with rfl
              exact hid
          · rw [List.pairwise_append]
            refine ⟨h2, List.pairwise_singleton _ _, ?_⟩
            intro c hc d hd
            rcases List.mem_singleton.mp hd with rfl
            exact fun hsame => hpt c hc hsame
  | clear _ ih => exact ih
  | delete id _ ih =>
    rename_i s' _
    obtain ⟨h1, h2⟩ := ih
    refine ⟨?_, ?_⟩
    · intro c hc
      exact h1 c (List.mem_of_mem_filter hc)
    · exact List.Pairwise.sublist (List.filter_sublist _) h2

/-- C7: the link set never contains a self-loop nor two links over the same
unordered pair of bubbles, on every state reachable through the link tool;
and the concrete scenario: clicking A, B, C produces exactly
`[(A,B),(B,C)]`, and after clearing the active node, re-clicking A and then
B adds no new link. -/
theorem link_no_selfloop_no_duplicate :
    (∀ s : LinkState, LinkReachable s → goodLinks s.connections) ∧
    (handleBubbleConnect (handleBubbleConnect
        (handleBubbleConnect ⟨[], none⟩ "A") "B") "C").connections =
      [("A", "B"), ("B", "C")] ∧
    (handleBubbleConnect (handleBubbleConnect (clearActiveNode
        (handleBubbleConnect (handleBubbleConnect
          (handleBubbleConnect ⟨[], none⟩ "A") "B") "C")) "A") "B").connections =
      [("A", "B"), ("B", "C")] := by
  refine ⟨fun s h => linkReachable_goodLinks h, ?_, ?_⟩ <;> decide

/-- Witness for C7's invariant half at a concrete reachable state. -/
theorem link_no_selfloop_no_duplicate_witness :
    goodLinks (handleBubbleConnect
      (handleBubbleConnect ⟨[], none⟩ "A") "B").connections :=
  link_no_selfloop_no_duplicate.1 _
    (LinkReachable.connect "B" (LinkReachable.connect "A" LinkReachable.init))

/-! ### Chain-decomposition lemmas -/

theorem mem_insertOnce_self (acc : List String) (x : String) :
    x ∈ insertOnce acc x := by
  unfold insertOnce
  split
  · assumption
  · exact List.mem_append_right _ (List.mem_singleton_self x)

theorem mem_insertOnce_of_mem (acc : List String) (x y : String)
    (h : y ∈ acc) : y ∈ insertOnce acc x := by
  unfold insertOnce
  split
  · exact h
  · exact List.mem_append_left _ h

theorem mem_nodesOf_foldl (l : List (String × String)) :
    ∀ (acc : List String) (y : String), y ∈ acc →
      y ∈ l.foldl (fun acc c => insertOnce (insertOnce acc c.1) c.2) acc := by
  induction l with
  | nil => intro acc y h; exact h
  | cons c l ih =>
    intro acc y h
    exact ih _ y (mem_insertOnce_of_mem _ _ _ (mem_insertOnce_of_mem _ _ _ h))

theorem pair_mem_nodesOf_foldl (l : List (String × String)) :
    ∀ (acc : List String) (p : String × String), p ∈ l →
      p.1 ∈ l.foldl (fun acc c => insertOnce (insertOnce acc c.1) c.2) acc ∧
      p.2 ∈ l.foldl (fun acc c => insertOnce (insertOnce acc c.1) c.2) acc := by
  induction l with
  | nil => intro acc p h; cases h
  | cons c l ih =>
    intro acc p hp
    rcases List.mem_cons.mp hp with rfl | htail
    · constructor
      · exact mem_nodesOf_foldl l _ _
          (mem_insertOnce_of_mem _ _ _ (mem_insertOnce_self _ _))
      · exact mem_nodesOf_foldl l _ _ (mem_insertOnce_self _ _)
    · exact ih _ p htail

theorem adjOf_mem_nodesOf (conns : List (String × String)) (c x : String)
    (hx : x ∈ adjOf conns c) : x ∈ nodesOf conns := by
  unfold adjOf at hx
  rw [List.mem_map] at hx
  obtain ⟨p, hp, rfl⟩ := hx
  have hpc := List.mem_of_mem_filter hp
  exact (pair_mem_nodesOf_foldl conns [] p hpc).2

theorem length_filter_mono {α : Type} (p q : α → Bool)
    (h : ∀ x, p x = true → q x = true) :
    ∀ U : List α, (U.filter p).length ≤ (U.filter q).length := by
  intro U
  induction U with
  | nil => simp
  | cons a U ih =>
    by_cases hp : p a = true
    · rw [List.filter_cons_of_pos hp, List.filter_cons_of_pos (h a hp)]
      simpa using ih
    · rw [List.filter_cons_of_neg (by simpa using hp)]
      by_cases hq : q a = true
      · rw [List.filter_cons_of_pos hq]
        exact le_trans ih (by simp)
      · rw [List.filter_cons_of_neg (by simpa using hq)]
        exact ih

theorem filter_visited_snoc_lt (next : String) (visited : List String) :
    ∀ U : List String, next ∈ U → next ∉ visited →
      (U.filter fun x => decide (x ∉ visited ++ [next])).length <
      (U.filter fun x => decide (x ∉ visited)).length := by
  have hmono : ∀ x : String, decide (x ∉ visited ++ [next]) = true →
      decide (x ∉ visited) = true := by
    intro x hx
    rw [decide_eq_true_eq] at hx ⊢
    exact fun hv => hx (List.mem_append_left _ hv)
  intro U
  induction U with
  | nil => intro h; cases h
  | cons a U ih =>
    intro hU hv
    rw [List.filter_cons, List.filter_cons]
    by_cases ha : a = next
    · rw [ha]
      rw [if_neg (by simp : ¬ (decide (next ∉ visited ++ [next]) = true)),
        if_pos (by simpa using hv : decide (next ∉ visited) = true)]
      simp only [List.length_cons]
      exact Nat.lt_succ_of_le (length_filter_mono _ _ hmono U)
    · have hU' : next ∈ U := by
        rcases List.mem_cons.mp hU with h | h
        · exact absurd h.symm ha
        · exact h
      by_cases hkeep : decide (a ∉ visited) = true
      · by_cases hkeep' : decide (a ∉ visited ++ [next]) = true
        · rw [if_pos hkeep', if_pos hkeep]
          simp only [List.length_cons]
          exact Nat.succ_lt_succ (ih hU' hv)
        · rw [if_neg hkeep', if_pos hkeep]
          simp only [List.length_cons]
          exact Nat.lt_succ_of_lt (ih hU' hv)
      · rw [if_neg (fun hc => hkeep (hmono a hc)), if_neg hkeep]
        exact ih hU' hv

theorem walkAux_fuel_stable (adj : String → List String) (U : List String)
    (hadj : ∀ c x, x ∈ adj c → x ∈ U) :
    ∀ (k fuel fuel' : Nat) (visited : List String) (curr : String),
      (U.filter fun x => decide (x ∉ visited)).length ≤ k →
      k ≤ fuel → k ≤ fuel' →
      walkAux adj fuel visited curr = walkAux adj fuel' visited curr := by
  intro k
  induction k with
  | zero =>
    intro fuel fuel' visited curr hcount _ _
    have hnone : ∀ c, (adj c).find? (fun n => decide (n ∉ visited)) = none := by
      intro c
      rw [List.find?_eq_none]
      intro x hx
      simp only [decide_eq_true_eq, Decidable.not_not]
      by_contra hxv
      have hmem : x ∈ U.filter fun y => decide (y ∉ visited) :=
        List.mem_filter.mpr ⟨hadj c x hx, by simpa using hxv⟩
      have := List.length_pos_of_mem hmem
      omega
    have hval : ∀ f, walkAux adj f visited curr = ([], visited) := by
      intro f
      cases f with
      | zero => rfl
      | succ f =>
        show walkAux adj (f + 1) visited curr = ([], visited)
        rw [show walkAux adj (f + 1) visited curr =
            (match (adj curr).find? (fun n => decide (n ∉ visited)) with
             | none => ([], visited)
             | some next =>
               let r := walkAux adj f (visited ++ [next]) next
               (next :: r.1, r.2)) from rfl, hnone curr]
    rw [hval fuel, hval fuel']
  | succ k ih =>
    intro fuel fuel' visited curr hcount hf hf'
    cases fuel with
    | zero => omega
    | succ f =>
      cases fuel' with
      | zero => omega
      | succ f' =>
        rw [show walkAux adj (f + 1) visited curr =
            (match (adj curr).find? (fun n => decide (n ∉ visited)) with
             | none => ([], visited)
             | some next =>
               let r := walkAux adj f (visited ++ [next]) next
               (next :: r.1, r.2)) from rfl]
        rw [show walkAux adj (f' + 1) visited curr =
            (match (adj curr).find? (fun n => decide (n ∉ visited)) with
             | none => ([], visited)
             | some next =>
               let r := walkAux adj f' (visited ++ [next]) next
               (next :: r.1, r.2)) from rfl]
        cases hfind : (adj curr).find? (fun n => decide (n ∉ visited)) with
        | none => rfl
        | some next =>
          have hnextp := List.find?_some hfind
          have hnexta := List.mem_of_find?_eq_some hfind
          rw [decide_eq_true_eq] at hnextp
          have hnextU : next ∈ U := hadj curr next hnexta
          have hlt := filter_visited_snoc_lt next visited U hnextU hnextp
          have hcount' :
              ((U.filter fun x => decide (x ∉ visited ++ [next])).length ≤ k) := by
            omega
          have := ih f f' (visited ++ [next]) next hcount'
            (by omega) (by omega)
          simp only [this]

/-- C4: the link set `[(A,B),(B,C),(D,E)]` decomposes to exactly
`[[A,B,C],[D,E]]`; and on the 3-cycle `[(A,B),(B,C),(C,A)]` the walk
terminates — any fuel beyond the three nodes leaves the result unchanged —
and yields exactly one chain containing all three nodes. -/
theorem chain_decomposition :
    buildChains [("A", "B"), ("B", "C"), ("D", "E")] =
      [["A", "B", "C"], ["D", "E"]] ∧
    ∀ extra : Nat,
      buildChainsFuel (3 + extra) [("A", "B"), ("B", "C"), ("C", "A")] =
        [["A", "B", "C"]] := by
  constructor
  · decide
  · intro extra
    have hadj : ∀ c x, x ∈ adjOf [("A", "B"), ("B", "C"), ("C", "A")] c →
        x ∈ nodesOf [("A", "B"), ("B", "C"), ("C", "A")] :=
      fun c x hx => adjOf_mem_nodesOf _ c x hx
    have hstable := walkAux_fuel_stable
      (adjOf [("A", "B"), ("B", "C"), ("C", "A")])
      (nodesOf [("A", "B"), ("B", "C"), ("C", "A")]) hadj 2 (3 + extra) 2
      ["A"] "A" (by decide) (by omega) (by omega)
    have hA : chainStep (adjOf [("A", "B"), ("B", "C"), ("C", "A")])
        (3 + extra) ([], []) "A" = (["A", "B", "C"], [["A", "B", "C"]]) := by
      simp only [chainStep, getChain]
      rw [if_neg (by decide : ¬ ("A" ∈ (([], []) :
        List String × List (List String)).1))]
      simp only [List.nil_append]
      rw [hstable]
      rfl
    show (List.foldl
        (chainStep (adjOf [("A", "B"), ("B", "C"), ("C", "A")]) (3 + extra))
        ([], []) ["A", "B", "C"]).2 = [["A", "B", "C"]]
    simp only [List.foldl_cons, List.foldl_nil, hA]
    rfl

/-- Witness instantiating C4's cycle half at zero extra fuel. -/
theorem chain_decomposition_witness :
    buildChainsFuel (3 + 0) [("A", "B"), ("B", "C"), ("C", "A")] =
      [["A", "B", "C"]] :=
  chain_decomposition.2 0

/-! ### Retranslation-pass lemmas -/

theorem runChainsAux_except (oracle : Nat → List (String × String))
    (skip : Nat) (h : oracle skip = []) :
    ∀ (chains : List (List String)) (pos : Nat) (bs : List TextBubble),
      runChainsAux oracle chains pos bs =
      runChainsExceptAux oracle skip chains pos bs := by
  intro chains
  induction chains with
  | nil => intro pos bs; rfl
  | cons c rest ih =>
    intro pos bs
    simp only [runChainsAux, runChainsExceptAux]
    have harg : (if c.length < 2 then bs else applyChainResult bs (oracle pos)) =
        (if pos = skip ∨ c.length < 2 then bs
         else applyChainResult bs (oracle pos)) := by
      by_cases hp : pos = skip
      · subst hp
        rw [h]
        by_cases hl : c.length < 2
        · rw [if_pos hl, if_pos (Or.inl rfl)]
        · rw [if_neg hl, if_pos (Or.inl rfl)]
          rfl
      · by_cases hl : c.length < 2
        · rw [if_pos hl, if_pos (Or.inr hl)]
        · rw [if_neg hl, if_neg (by tauto)]
    rw [harg]
    exact ih _ _

theorem setFirstText_filter_ne (id tid text : String) (h : tid ≠ id) :
    ∀ bs : List TextBubble,
      (setFirstText bs tid text).filter (fun b => decide (b.id = id)) =
      bs.filter (fun b => decide (b.id = id)) := by
  intro bs
  induction bs with
  | nil => rfl
  | cons b rest ih =>
    simp only [setFirstText]
    by_cases hb : b.id = tid
    · rw [if_pos hb, List.filter_cons, List.filter_cons]
      have hne : ¬ (decide (b.id = id) = true) := by
        simp only [decide_eq_true_eq]
        rw [hb]
        exact h
      rw [if_neg (by simpa using hne), if_neg hne]
    · rw [if_neg hb, List.filter_cons, List.filter_cons]
      by_cases hid : decide (b.id = id) = true
      · rw [if_pos hid, if_pos hid, ih]
      · rw [if_neg hid, if_neg hid, ih]

theorem applyChainResult_filter_ne (id : String) :
    ∀ (res : List (String × String)) (bs : List TextBubble),
      (∀ p ∈ res, p.1 ≠ id) →
      (applyChainResult bs res).filter (fun b => decide (b.id = id)) =
      bs.filter (fun b => decide (b.id = id)) := by
  intro res
  induction res with
  | nil => intro bs _; rfl
  | cons t res ih =>
    intro bs hp
    have hstep : applyChainResult bs (t :: res) =
        applyChainResult (setFirstText bs t.1 t.2) res := rfl
    rw [hstep, ih _ (fun p hpm => hp p (List.mem_cons_of_mem _ hpm)),
      setFirstText_filter_ne id t.1 t.2 (hp t (List.mem_cons_self _ _))]

theorem runChainsAux_filter_ne (oracle : Nat → List (String × String))
    (id : String) (hor : ∀ j p, p ∈ oracle j → p.1 ≠ id) :
    ∀ (chains : List (List String)) (pos : Nat) (bs : List TextBubble),
      (runChainsAux oracle chains pos bs).filter (fun b => decide (b.id = id)) =
      bs.filter (fun b => decide (b.id = id)) := by
  intro chains
  induction chains with
  | nil => intro pos bs; rfl
  | cons c rest ih =>
    intro pos bs
    simp only [runChainsAux]
    rw [ih]
    by_cases hl : c.length < 2
    · rw [if_pos hl]
    · rw [if_neg hl, applyChainResult_filter_ne id _ bs (fun p hp => hor pos p hp)]

/-- C8: with a non-empty link set, one retranslation pass equals exactly one
`addToHistory` whose snapshot carries all chain results (one undoable step);
a chain whose collaborator response is `[]` (the failure contract of
`retranslateContextAware`) contributes nothing — the pass equals the pass
with that chain skipped, so sibling chains are still processed and the batch
commit still happens; and bubbles never named in any response keep their
state. -/
theorem retranslate_single_commit_and_isolation (s : HistState)
    (conns : List (String × String)) (oracle : Nat → List (String × String))
    (h : conns ≠ []) :
    handleRetranslateLinked s conns oracle =
      addToHistory s (runChains s.bubbles (buildChains conns) oracle) ∧
    (∀ i, oracle i = [] →
      runChains s.bubbles (buildChains conns) oracle =
      runChainsExcept s.bubbles (buildChains conns) oracle i) ∧
    (∀ id, (∀ j p, p ∈ oracle j → p.1 ≠ id) →
      (runChains s.bubbles (buildChains conns) oracle).filter
          (fun b => decide (b.id = id)) =
      s.bubbles.filter (fun b => decide (b.id = id))) := by
  refine ⟨?_, ?_, ?_⟩
  · unfold handleRetranslateLinked
    rw [if_neg h]
  · intro i hi
    exact runChainsAux_except oracle i hi (buildChains conns) 0 s.bubbles
  · intro id hor
    exact runChainsAux_filter_ne oracle id hor (buildChains conns) 0 s.bubbles

/-- Witness for C8 at a one-link set whose single chain fails. -/
theorem retranslate_single_commit_witness :
    handleRetranslateLinked initialHist [("A", "B")] (fun _ => []) =
      addToHistory initialHist
        (runChains initialHist.bubbles (buildChains [("A", "B")])
          (fun _ => [])) :=
  (retranslate_single_commit_and_isolation initialHist [("A", "B")]
    (fun _ => []) (by decide)).1

/-! ### Font-sizing and layout theorems -/

theorem calculateBaseFontSize_eq_spec (sqrtFn : ℚ → ℚ) (n : Nat) (w h : ℚ) :
    calculateBaseFontSize sqrtFn n w h = specBaseFontSize sqrtFn n w h := by
  have harg : (if n = 0 then (1 : ℚ) else (n : ℚ)) = ((max n 1 : Nat) : ℚ) := by
    cases n with
    | zero => simp
    | succ m =>
      rw [if_neg (by omega), Nat.max_eq_left (by omega)]
  simp only [calculateBaseFontSize, specBaseFontSize, harg]

/-- C9: the base font size computed by the source equals
`sqrt(W*H / max(N,1)) * 0.6` clamped to [10, 50], for every text length N
and box dimensions; and for every bubble with a nonzero `fontSizeScale`
(the reachable range is [0.5, 3]), the exporter's final pixel size equals
`base × (targetPixelWidth / 1000) × fontSizeScale`. -/
theorem font_size_formula (sqrtFn : ℚ → ℚ) (n : Nat) (w h : ℚ)
    (b : TextBubble) (W : ℚ) (hscale : b.fontSizeScale ≠ 0) :
    calculateBaseFontSize sqrtFn n w h = specBaseFontSize sqrtFn n w h ∧
    exportScaledFontSize sqrtFn b W = specScaledFontSize sqrtFn b W := by
  refine ⟨calculateBaseFontSize_eq_spec sqrtFn n w h, ?_⟩
  simp only [exportScaledFontSize, specScaledFontSize,
    calculateBaseFontSize_eq_spec, jsOrOne, if_neg hscale]

/-- Witness for C9 at `sampleBubble` (`fontSizeScale = 1`). -/
theorem font_size_formula_witness :
    sampleBubble.fontSizeScale ≠ 0 ∧
    exportScaledFontSize (fun q => q) sampleBubble 1000 =
      specScaledFontSize (fun q => q) sampleBubble 1000 := by
  have h : sampleBubble.fontSizeScale ≠ 0 := by
    norm_num [sampleBubble]
  exact ⟨h, (font_size_formula (fun q => q) 0 0 0 sampleBubble 1000 h).2⟩

/-- C5 (amended): the live preview and the exporter compute the same base
font size and the same final pixel font size at equal render width; the
width fed to line wrapping also agrees whenever the padded box width is at
least 10 pixels, in which case any common measurement function produces
identical line breaks — but the exporter clamps its wrap width up to 10
pixels while the preview's CSS content width is unclamped, so the layout
inputs of the two call sites differ for very narrow boxes
(`layout_width_divergence_cex`). -/
theorem layout_call_sites_agree (sqrtFn : ℚ → ℚ) (measure : String → ℚ)
    (b : TextBubble) (W : ℚ) (hw : 10 ≤ previewContentWidth b W) :
    previewFontSizePx sqrtFn b W = exportScaledFontSize sqrtFn b W ∧
    exportMaxWidth b W = previewContentWidth b W ∧
    wrapLines measure b.text (exportMaxWidth b W) =
      wrapLines measure b.text (previewContentWidth b W) := by
  have hkey : ∀ w p : ℚ, w - w * p * 2 = w - 2 * (p * w) := by
    intro w p
    ring
  have hwidth : exportMaxWidth b W = previewContentWidth b W := by
    simp only [exportMaxWidth, previewContentWidth, hkey] at *
    exact max_eq_left hw
  exact ⟨rfl, hwidth, by rw [hwidth]⟩

/-- Witness for C5 (amended) at `sampleBubble`, render width 1000. -/
theorem layout_call_sites_agree_witness :
    10 ≤ previewContentWidth sampleBubble 1000 ∧
    exportMaxWidth sampleBubble 1000 = previewContentWidth sampleBubble 1000 := by
  have h : 10 ≤ previewContentWidth sampleBubble 1000 := by
    simp only [previewContentWidth, sampleBubble]
    rw [if_neg (by decide : ¬ (Shape.rectangle = Shape.ellipse))]
    norm_num
  exact ⟨h, (layout_call_sites_agree (fun q => q) (fun _ => 0)
    sampleBubble 1000 h).2.1⟩

/-- Counterexample to C5 as stated: at a minimum-size box (10 normalized
units wide) on a 1000-pixel image the two call sites agree on the font
size but feed different widths to line breaking — the exporter clamps its
wrap width to 10 px while the preview's CSS content width is 9.2 px — so
the computed text layout is not identical. -/
theorem layout_width_divergence_cex :
    previewFontSizePx (fun q => q) tinyBubble 1000 =
      exportScaledFontSize (fun q => q) tinyBubble 1000 ∧
    exportMaxWidth tinyBubble 1000 ≠ previewContentWidth tinyBubble 1000 := by
  refine ⟨rfl, ?_⟩
  simp only [exportMaxWidth, previewContentWidth, tinyBubble, sampleBubble]
  rw [if_neg (by decide : ¬ (Shape.rectangle = Shape.ellipse))]
  norm_num
